import Mathlib

/-!
Verification development for the Beijing new-house data pipeline.

The Python sources are embedded shallowly:
* `preprocessing.py` — `extract_number`, `safe_get_str`, `process_record`
  (record normalization of raw JSON records into the fixed 9-column schema);
* `average_price_per_district.py` / `heatmap_average_price_per_district_type.py`
  — `load_data` (column contract, numeric coercion, astype(str), dropna),
  `prepare_plot_data` (groupby + agg), `compute_average_prices` (groupby + pivot);
* `radar_chart.py` — `normalize_data` (min-max range scaling).

Python `float` values are modelled as exact rationals (ℚ); pandas missing
values (NaN) as `Option`; Python exceptions as `Except`.
-/

namespace House

/-- Model of a Python JSON value as stored in a raw record field. -/
inductive Value where
  | vstr : String → Value
  | vlist : List Value → Value
  | vnull : Value
  | vnum : ℚ → Value
  | vother : Value

/-- `isinstance(v, str)` for the modelled values. -/
def Value.isStr : Value → Bool
  | .vstr _ => true
  | _ => false

/-- A raw JSON record: a Python dict modelled as an association list. -/
abbrev RawRecord := List (String × Value)

/-- `record.get(key)` — first binding of `key`, if any. -/
def assocGet (record : RawRecord) (key : String) : Option Value :=
  (record.find? (fun p => p.1 == key)).map (·.2)

/-- Python `str.strip()`: remove leading and trailing whitespace. -/
def pyStrip (s : String) : String :=
  String.mk (((s.data.dropWhile Char.isWhitespace).reverse.dropWhile
    Char.isWhitespace).reverse)

/-- `safe_get_str(record, key)` from `preprocessing.py`: `record.get(key, "")`,
stripped if it is a string, else the empty string. -/
def safeGetStr (record : RawRecord) (key : String) : String :=
  match assocGet record key with
  | some (.vstr s) => pyStrip s
  | some _ => ""
  | none => ""          -- the Python default "" is a string; "".strip() = ""

/-- Scanner state for the regex `\d+\.?\d*`: outside a token, inside the
integer part, or past the optional dot. -/
inductive ScanMode where
  | idle : ScanMode
  | ip : ScanMode
  | fp : ScanMode

/-- Left-to-right scanner realizing `re.findall(r"\d+\.?\d*", text)`.
`acc` holds the characters of the current token in reverse order. -/
def scanAux : ScanMode → List Char → List Char → List String
  | .idle, _, [] => []
  | .ip, acc, [] => [String.mk acc.reverse]
  | .fp, acc, [] => [String.mk acc.reverse]
  | .idle, _, c :: cs =>
      if c.isDigit then scanAux .ip [c] cs else scanAux .idle [] cs
  | .ip, acc, c :: cs =>
      if c.isDigit then scanAux .ip (c :: acc) cs
      else if c = '.' then scanAux .fp (c :: acc) cs
      else String.mk acc.reverse :: scanAux .idle [] cs
  | .fp, acc, c :: cs =>
      if c.isDigit then scanAux .fp (c :: acc) cs
      else String.mk acc.reverse :: scanAux .idle [] cs

/-- `extract_number(text)` from `preprocessing.py`:
`re.findall(r"\d+\.?\d*", text)` on a string. -/
def extract_number (text : String) : List String :=
  scanAux .idle [] text.data

/-- `extract_number` applied to an arbitrary value: `re.findall` raises
`TypeError` when its subject is not a string. -/
def extract_numberV : Value → Except String (List String)
  | .vstr s => .ok (extract_number s)
  | _ => .error "TypeError"

/-- Shape of the tail of a numeric token: digits, then an optional dot
followed only by digits. -/
def restTok : List Char → Bool
  | [] => true
  | c :: rest =>
      if c.isDigit then restTok rest
      else if c = '.' then rest.all Char.isDigit
      else false

/-- The regex shape `\d+\.?\d*` claimed for extracted tokens: a digit, then
digits, then an optional dot followed only by digits. -/
def isNumToken (l : List Char) : Bool :=
  match l with
  | [] => false
  | c :: rest => c.isDigit && restTok rest

/-- Numeric value of a digit string (most significant first). -/
def digitsToNat (l : List Char) : ℕ :=
  l.foldl (fun a c => 10 * a + (c.toNat - 48)) 0

/-- An unsigned decimal value `m / 10 ^ e`, the result of parsing the digits
of a decimal literal. -/
structure Dec where
  m : ℕ
  e : ℕ
deriving DecidableEq

/-- Parse an unsigned decimal literal `digits [. digits]` (at least one digit
overall) into mantissa and scale. -/
def pyParseUnsigned (l : List Char) : Option Dec :=
  let ip := l.takeWhile Char.isDigit
  let rest := l.dropWhile Char.isDigit
  match rest with
  | [] => if ip.isEmpty then none else some ⟨digitsToNat ip, 0⟩
  | '.' :: frac =>
      if frac.all Char.isDigit && (!ip.isEmpty || !frac.isEmpty) then
        some ⟨digitsToNat (ip ++ frac), frac.length⟩
      else none
  | _ => none

/-- Strip an optional leading sign, returning whether it was a minus. -/
def pySign (l : List Char) : Bool × List Char :=
  match l with
  | [] => (false, [])
  | c :: rest =>
      if c = '-' then (true, rest)
      else if c = '+' then (false, rest)
      else (false, c :: rest)

/-- Sign-and-digits parse of a decimal literal. -/
def pyParse (s : String) : Option (Bool × Dec) :=
  let p := pySign s.data
  (pyParseUnsigned p.2).map (fun d => (p.1, d))

/-- Rational value of an unsigned decimal. -/
def decVal (d : Dec) : ℚ :=
  if d.e = 0 then (d.m : ℚ) else (d.m : ℚ) / 10 ^ d.e

/-- Model of Python `float(s)` on the decimal forms relevant here
(optional sign, digits, optional fractional part); `none` models
`ValueError`. -/
def pyFloat (s : String) : Option ℚ :=
  (pyParse s).map (fun sd => if sd.1 then -(decVal sd.2) else decVal sd.2)

/-- Total version of `pyFloat`, used where parsing is proved to succeed. -/
def pyFloatD (s : String) : ℚ := (pyFloat s).getD 0

/-- Python `float(s)` as an `Except`; `ValueError` on failure. -/
def floatE (s : String) : Except String ℚ :=
  match pyFloat s with
  | some q => .ok q
  | none => .error "ValueError"

/-- Python `round(q)` to an integer: nearest integer, ties to even. -/
def pyRound (q : ℚ) : ℤ :=
  if q - Int.floor q < 1/2 then Int.floor q
  else if 1/2 < q - Int.floor q then Int.floor q + 1
  else if Int.floor q % 2 = 0 then Int.floor q else Int.floor q + 1

/-- Python `int(q)` on a float value: truncation toward zero. -/
def pyInt (q : ℚ) : ℤ :=
  if 0 ≤ q then Int.floor q else Int.ceil q

/-- Arithmetic mean of a list of rationals (`sum(l) / len(l)`). -/
def mean (l : List ℚ) : ℚ := l.sum / l.length

/-- A value stored in one CSV cell of the normalized row: a Python `str`
or a Python `int`.  The missing marker is the empty string. -/
inductive Cell where
  | str : String → Cell
  | int : ℤ → Cell
deriving DecidableEq

/-- A normalized row, as the dict built by `process_record`: keys in
insertion order. -/
abbrev Row := List (String × Cell)

/-- `record.get("location", [])` followed by the `isinstance(..., list)`
check: any non-list value collapses to the empty list. -/
def getLocs (record : RawRecord) : List Value :=
  match assocGet record "location" with
  | some (.vlist l) => l
  | some _ => []
  | none => []

/-- `record.get("room", [])` with the same non-list collapse. -/
def getRooms (record : RawRecord) : List Value :=
  match assocGet record "room" with
  | some (.vlist l) => l
  | some _ => []
  | none => []

/-- Position `i` of the location list: stripped if present and a string,
otherwise the empty string. -/
def locField (locs : List Value) (i : ℕ) : String :=
  match locs.get? i with
  | some (.vstr s) => pyStrip s
  | _ => ""

/-- `[float(num) for num in extract_number(room)]` accumulated over all
string elements of the room list, propagating `ValueError`. -/
def roomPoolE : List Value → Except String (List ℚ)
  | [] => .ok []
  | .vstr s :: vs =>
      match (extract_number s).mapM floatE with
      | .error e => .error e
      | .ok qs =>
          match roomPoolE vs with
          | .error e => .error e
          | .ok rest => .ok (qs ++ rest)
  | _ :: vs => roomPoolE vs

/-- Total version of `roomPoolE` (every token is proved to parse). -/
def roomPoolD : List Value → List ℚ
  | [] => []
  | .vstr s :: vs => (extract_number s).map pyFloatD ++ roomPoolD vs
  | _ :: vs => roomPoolD vs

/-- The `房型` cell: rounded mean of the room-number pool, or missing. -/
def roomCellD (rooms : List Value) : Cell :=
  match roomPoolD rooms with
  | [] => .str ""
  | q :: qs => .int (pyRound (mean (q :: qs)))

/-- The `面积` cell: rounded midpoint of the first two tokens, rounded single
token, or missing ("" if no numeric token). -/
def areaCellD (t : String) : Cell :=
  match extract_number t with
  | a :: b :: _ => .int (pyRound ((pyFloatD a + pyFloatD b) / 2))
  | [a] => .int (pyRound (pyFloatD a))
  | [] => .str ""

/-- The `总价` / `均价` cell: `int(float(first token))`, or missing. -/
def priceCellD (t : String) : Cell :=
  match extract_number t with
  | a :: _ => .int (pyInt (pyFloatD a))
  | [] => .str ""

/-- `process_record(record)` from `preprocessing.py`: the returned dict as an
ordered list of the nine schema fields. -/
def processRecord (record : RawRecord) : Row :=
  [("楼盘名称", .str (safeGetStr record "name")),
   ("类型", .str (safeGetStr record "type")),
   ("行政区", .str (locField (getLocs record) 0)),
   ("街道", .str (locField (getLocs record) 1)),
   ("具体位置", .str (locField (getLocs record) 2)),
   ("房型", roomCellD (getRooms record)),
   ("面积", areaCellD (safeGetStr record "area")),
   ("总价", priceCellD (safeGetStr record "total_price")),
   ("均价", priceCellD (safeGetStr record "unit_price"))]

/-- `process_record` with every Python `float(...)` call made explicit:
a `ValueError` anywhere aborts the record (this is what the Python would
raise; the development proves it never fires). -/
def processRecordE (record : RawRecord) : Except String Row :=
  match roomPoolE (getRooms record) with
  | .error e => .error e
  | .ok _ =>
    match (extract_number (safeGetStr record "area")).mapM floatE with
    | .error e => .error e
    | .ok _ =>
      match (extract_number (safeGetStr record "total_price")).mapM floatE with
      | .error e => .error e
      | .ok _ =>
        match (extract_number (safeGetStr record "unit_price")).mapM floatE with
        | .error e => .error e
        | .ok _ => .ok (processRecord record)

/-- Lookup of a field in a row (dict access on the result). -/
def rowLookup (row : Row) (k : String) : Option Cell :=
  (row.find? (fun p => p.1 == k)).map (·.2)

/-- The nine schema field names, in the order `process_record` creates them. -/
def fieldnames : List String :=
  ["楼盘名称", "类型", "行政区", "街道", "具体位置", "房型", "面积", "总价", "均价"]

/-! Table ingestion (`load_data` of the chart scripts)

A loaded CSV is modelled post-`read_csv`: a header and rows of cells, where
`none` is a missing cell (pandas `NaN`, e.g. from an empty CSV field). -/

/-- A parsed CSV table. -/
structure Csv where
  header : List String
  rows : List (List (Option String))

/-- The required-column loop: report the first missing column, in the
caller's declared order. -/
def checkColumns : List String → List String → Except String Unit
  | [], _ => .ok ()
  | c :: cs, header =>
      if c ∈ header then checkColumns cs header else .error c

/-- Cell of `row` under column `col` of the header; `none` when the column
is absent or the cell is missing. -/
def getCell (header : List String) (row : List (Option String)) (col : String) :
    Option String :=
  match header.findIdx? (fun h => h == col) with
  | some i => (row.get? i).join
  | none => none

/-- `pd.to_numeric(col, errors="coerce")` on one cell: unparseable or
missing becomes `NaN` (`none`). -/
def pdToNumeric (c : Option String) : Option ℚ := c.bind pyFloat

/-- `astype(str)` on one cell: pandas renders a missing value as the string
"nan". -/
def astypeStr : Option String → String
  | some s => s
  | none => "nan"

/-- A row surviving `load_data` of `average_price_per_district.py`:
`均价`/`总价` numeric, `行政区` a string, plus the raw `楼盘名称` cell
(not required, so possibly missing). -/
structure CleanRowA where
  unit : ℚ
  total : ℚ
  district : String
  name : Option String
deriving DecidableEq

/-- `load_data` of `average_price_per_district.py` after `read_csv`:
required-column check on `["均价", "总价", "行政区"]`, numeric coercion of
`均价`/`总价`, `astype(str)` on `行政区`, then
`dropna(subset=["均价", "总价", "行政区"])`.  After `astype(str)` the
`行政区` column holds no nulls, so only the numeric columns can drop a
row. -/
def loadDataAvg (csv : Csv) : Except String (List CleanRowA) :=
  match checkColumns ["均价", "总价", "行政区"] csv.header with
  | .error c => .error c
  | .ok _ =>
    .ok (csv.rows.filterMap (fun row =>
      match pdToNumeric (getCell csv.header row "均价"),
            pdToNumeric (getCell csv.header row "总价") with
      | some u, some t =>
          some ⟨u, t, astypeStr (getCell csv.header row "行政区"),
                getCell csv.header row "楼盘名称"⟩
      | _, _ => none))

/-- A row surviving `load_data` of
`heatmap_average_price_per_district_type.py`: additionally requires and
keeps the `类型` column. -/
structure CleanRowH where
  district : String
  ty : String
  unit : ℚ
  total : ℚ
deriving DecidableEq

/-- `load_data` of `heatmap_average_price_per_district_type.py`:
required columns `["均价", "总价", "行政区", "类型"]`, numeric coercion of
the two price columns, `astype(str)` on both categoricals, then `dropna`
over all four (the categoricals hold no nulls after `astype(str)`). -/
def loadDataHeat (csv : Csv) : Except String (List CleanRowH) :=
  match checkColumns ["均价", "总价", "行政区", "类型"] csv.header with
  | .error c => .error c
  | .ok _ =>
    .ok (csv.rows.filterMap (fun row =>
      match pdToNumeric (getCell csv.header row "均价"),
            pdToNumeric (getCell csv.header row "总价") with
      | some u, some t =>
          some ⟨astypeStr (getCell csv.header row "行政区"),
                astypeStr (getCell csv.header row "类型"), u, t⟩
      | _, _ => none))

/-! Aggregation (`prepare_plot_data`, `compute_average_prices`) -/

/-- One row of the grouped summary of `prepare_plot_data`. -/
structure DistrictSummary where
  key : String
  avgUnit : ℚ
  avgTotal : ℚ
  count : ℕ
deriving DecidableEq

/-- The distinct grouping-key values of the table. -/
def districtKeys (rows : List CleanRowA) : List String :=
  (rows.map (·.district)).dedup

/-- The aggregate record of one group: mean `均价`, mean `总价`, and the
pandas `("楼盘名称", "count")` aggregate, which counts the group's non-null
`楼盘名称` cells. -/
def summarizeDistrict (rows : List CleanRowA) (k : String) : DistrictSummary :=
  let g := rows.filter (fun r => r.district == k)
  ⟨k, mean (g.map (·.unit)), mean (g.map (·.total)),
    (g.filter (fun r => r.name.isSome)).length⟩

/-- `prepare_plot_data` of `average_price_per_district.py`: group by
`行政区`, aggregate, then `sort_values(by="平均单价", ascending=False)`. -/
def preparePlotData (rows : List CleanRowA) : List DistrictSummary :=
  List.insertionSort (fun a b => b.avgUnit ≤ a.avgUnit)
    ((districtKeys rows).map (summarizeDistrict rows))

/-- The distinct `(行政区, 类型)` pairs of the table. -/
def pairKeys (rows : List CleanRowH) : List (String × String) :=
  (rows.map (fun r => (r.district, r.ty))).dedup

/-- Mean `均价` of the group of one `(行政区, 类型)` pair. -/
def pairMeanUnit (rows : List CleanRowH) (d t : String) : ℚ :=
  mean ((rows.filter (fun r => r.district == d && r.ty == t)).map (·.unit))

/-- Mean `总价` of the group of one `(行政区, 类型)` pair. -/
def pairMeanTotal (rows : List CleanRowH) (d t : String) : ℚ :=
  mean ((rows.filter (fun r => r.district == d && r.ty == t)).map (·.total))

/-- The grouped frame of `compute_average_prices`: one row per observed
`(行政区, 类型)` pair, holding the two means. -/
def groupedHeat (rows : List CleanRowH) : List ((String × String) × ℚ × ℚ) :=
  (pairKeys rows).map (fun p => (p, pairMeanUnit rows p.1 p.2, pairMeanTotal rows p.1 p.2))

/-- Row index of the pivot: the distinct `行政区` values. -/
def pivotRowKeys (rows : List CleanRowH) : List String :=
  (rows.map (·.district)).dedup

/-- Column index of the pivot: the distinct `类型` values. -/
def pivotColKeys (rows : List CleanRowH) : List String :=
  (rows.map (·.ty)).dedup

/-- Cell `(d, t)` of the `平均单价` pivot table: the grouped mean when the
pair was observed, `NaN` (`none`) otherwise. -/
def pivotUnitCell (rows : List CleanRowH) (d t : String) : Option ℚ :=
  ((groupedHeat rows).find? (fun e => e.1 == (d, t))).map (fun e => e.2.1)

/-! Range scaling (`normalize_data` of `radar_chart.py`) -/

/-- `Series.min()` of a non-empty column (0 as a don't-care on `[]`). -/
def listMin : List ℚ → ℚ
  | [] => 0
  | x :: xs => xs.foldl min x

/-- `Series.max()` of a non-empty column (0 as a don't-care on `[]`). -/
def listMax : List ℚ → ℚ
  | [] => 0
  | x :: xs => xs.foldl max x

/-- One column of `normalize_data`: if `max - min == 0` the whole column is
set to the scalar 0, else min-max scaled. -/
def normalizeColumn (xs : List ℚ) : List ℚ :=
  if listMax xs - listMin xs = 0 then xs.map (fun _ => 0)
  else xs.map (fun v => (v - listMin xs) / (listMax xs - listMin xs))

/-- `normalize_data(df, metrics)`: each listed column is rescaled from the
original frame, every other column kept; column identity and order are
unchanged. -/
def normalizeData (tbl : List (String × List ℚ)) (metrics : List String) :
    List (String × List ℚ) :=
  tbl.map (fun col => if col.1 ∈ metrics then (col.1, normalizeColumn col.2) else col)

/-- Scanner invariant: in `ip` the (reversed) accumulator is a non-empty
digit string; in `fp` it is fractional digits, a dot, then the non-empty
integer digits. -/
def goodAcc : ScanMode → List Char → Prop
  | .idle, _ => True
  | .ip, acc => acc ≠ [] ∧ ∀ c ∈ acc, c.isDigit = true
  | .fp, acc => ∃ f d, acc = f ++ '.' :: d ∧ d ≠ [] ∧
      (∀ c ∈ f, c.isDigit = true) ∧ (∀ c ∈ d, c.isDigit = true)

end House

namespace House

/-! Token shape lemmas for `extract_number` -/

theorem dot_not_digit : ('.').isDigit = false := by decide

theorem restTok_digits (l : List Char) (h : ∀ c ∈ l, c.isDigit = true) :
    restTok l = true := by
  induction l with
  | nil => rfl
  | cons c rest ih =>
      have hc := h c (List.mem_cons_self c rest)
      simp [restTok, hc, ih (fun x hx => h x (List.mem_cons_of_mem c hx))]

theorem restTok_append (ds fs : List Char) (hds : ∀ c ∈ ds, c.isDigit = true)
    (hfs : ∀ c ∈ fs, c.isDigit = true) : restTok (ds ++ '.' :: fs) = true := by
  induction ds with
  | nil =>
      simp only [List.nil_append, restTok, dot_not_digit, Bool.false_eq_true,
        if_false, if_pos rfl]
      exact List.all_eq_true.mpr hfs
  | cons c ds ih =>
      have hc := hds c (List.mem_cons_self c ds)
      simp [restTok, hc, ih (fun x hx => hds x (List.mem_cons_of_mem c hx))]

theorem isNumToken_digits (l : List Char) (hne : l ≠ [])
    (h : ∀ c ∈ l, c.isDigit = true) : isNumToken l = true := by
  cases l with
  | nil => exact absurd rfl hne
  | cons c rest =>
      simp [isNumToken, h c (List.mem_cons_self c rest),
        restTok_digits rest (fun x hx => h x (List.mem_cons_of_mem c hx))]

theorem isNumToken_frac (f d : List Char) (hd : d ≠ [])
    (hdd : ∀ c ∈ d, c.isDigit = true) (hfd : ∀ c ∈ f, c.isDigit = true) :
    isNumToken (d.reverse ++ '.' :: f.reverse) = true := by
  have hrev : ∀ c ∈ d.reverse, c.isDigit = true :=
    fun c hc => hdd c (List.mem_reverse.mp hc)
  cases hrd : d.reverse with
  | nil => exact absurd (List.reverse_eq_nil_iff.mp hrd) hd
  | cons c et =>
      have hc : c.isDigit = true := hrev c (hrd ▸ List.mem_cons_self c et)
      have het : ∀ x ∈ et, x.isDigit = true :=
        fun x hx => hrev x (hrd ▸ List.mem_cons_of_mem c hx)
      have hfr : ∀ x ∈ f.reverse, x.isDigit = true :=
        fun x hx => hfd x (List.mem_reverse.mp hx)
      simp only [List.cons_append, isNumToken, hc, Bool.true_and]
      exact restTok_append et f.reverse het hfr

theorem scanAux_tokens (cs : List Char) :
    ∀ (mode : ScanMode) (acc : List Char), goodAcc mode acc →
      ∀ t ∈ scanAux mode acc cs, isNumToken t.data = true := by
  induction cs with
  | nil =>
      intro mode acc hacc t ht
      cases mode with
      | idle => simp [scanAux] at ht
      | ip =>
          simp only [scanAux, List.mem_singleton] at ht
          subst ht
          exact isNumToken_digits acc.reverse
            (by simpa [List.reverse_eq_nil_iff] using hacc.1)
            (fun x hx => hacc.2 x (List.mem_reverse.mp hx))
      | fp =>
          simp only [scanAux, List.mem_singleton] at ht
          subst ht
          obtain ⟨f, d, rfl, hd, hf, hdd⟩ := hacc
          show isNumToken (f ++ '.' :: d).reverse = true
          have : (f ++ '.' :: d).reverse = d.reverse ++ '.' :: f.reverse := by
            simp [List.reverse_append]
          rw [this]
          exact isNumToken_frac f d hd hdd hf
  | cons c cs ih =>
      intro mode acc hacc t ht
      cases mode with
      | idle =>
          simp only [scanAux] at ht
          split at ht
          case isTrue hc =>
              exact ih .ip [c] ⟨List.cons_ne_nil c [], by simpa using hc⟩ t ht
          case isFalse => exact ih .idle [] trivial t ht
      | ip =>
          simp only [scanAux] at ht
          split at ht
          case isTrue hc =>
              refine ih .ip (c :: acc) ⟨List.cons_ne_nil c acc, ?_⟩ t ht
              intro x hx
              rcases List.mem_cons.mp hx with rfl | hx
              · exact hc
              · exact hacc.2 x hx
          case isFalse =>
              split at ht
              case isTrue hdot =>
                  subst hdot
                  exact ih .fp ('.' :: acc)
                    ⟨[], acc, by simp, hacc.1, by simp, hacc.2⟩ t ht
              case isFalse =>
                  rcases List.mem_cons.mp ht with rfl | ht
                  · exact isNumToken_digits acc.reverse
                      (by simpa [List.reverse_eq_nil_iff] using hacc.1)
                      (fun x hx => hacc.2 x (List.mem_reverse.mp hx))
                  · exact ih .idle [] trivial t ht
      | fp =>
          obtain ⟨f, d, rfl, hd, hf, hdd⟩ := hacc
          simp only [scanAux] at ht
          split at ht
          case isTrue hc =>
              refine ih .fp (c :: (f ++ '.' :: d))
                ⟨c :: f, d, by simp, hd, ?_, hdd⟩ t ht
              intro x hx
              rcases List.mem_cons.mp hx with rfl | hx
              · exact hc
              · exact hf x hx
          case isFalse =>
              rcases List.mem_cons.mp ht with rfl | ht
              · show isNumToken (f ++ '.' :: d).reverse = true
                have : (f ++ '.' :: d).reverse = d.reverse ++ '.' :: f.reverse := by
                  simp [List.reverse_append]
                rw [this]
                exact isNumToken_frac f d hd hdd hf
              · exact ih .idle [] trivial t ht

/-- Every token produced by `extract_number` matches the shape
`digit+ (dot digit*)?`. -/
theorem extract_number_tokens (s : String) :
    ∀ t ∈ extract_number s, isNumToken t.data = true :=
  scanAux_tokens s.data .idle [] trivial

/-! Every token parses as a non-negative float -/

theorem restTok_shape (l : List Char) (h : restTok l = true) :
    ∃ ds rest, l = ds ++ rest ∧ (∀ c ∈ ds, c.isDigit = true) ∧
      (rest = [] ∨ ∃ fs, rest = '.' :: fs ∧ ∀ c ∈ fs, c.isDigit = true) := by
  induction l with
  | nil => exact ⟨[], [], rfl, by simp, Or.inl rfl⟩
  | cons c t ih =>
      by_cases hc : c.isDigit = true
      · rw [show restTok (c :: t) = restTok t by simp [restTok, hc]] at h
        obtain ⟨ds, rest, rfl, hds, hrest⟩ := ih h
        refine ⟨c :: ds, rest, rfl, ?_, hrest⟩
        intro x hx
        rcases List.mem_cons.mp hx with rfl | hx
        · exact hc
        · exact hds x hx
      · by_cases hdot : c = '.'
        · subst hdot
          rw [show restTok ('.' :: t) = t.all Char.isDigit by
            simp [restTok, dot_not_digit]] at h
          exact ⟨[], '.' :: t, rfl, by simp,
            Or.inr ⟨t, rfl, List.all_eq_true.mp h⟩⟩
        · rw [show restTok (c :: t) = false by simp [restTok, hc, hdot]] at h
          exact absurd h (by simp)

theorem isNumToken_shape (l : List Char) (h : isNumToken l = true) :
    ∃ ds rest, l = ds ++ rest ∧ ds ≠ [] ∧ (∀ c ∈ ds, c.isDigit = true) ∧
      (rest = [] ∨ ∃ fs, rest = '.' :: fs ∧ ∀ c ∈ fs, c.isDigit = true) := by
  cases l with
  | nil => exact absurd h (by simp [isNumToken])
  | cons c t =>
      simp only [isNumToken, Bool.and_eq_true] at h
      obtain ⟨ds, rest, rfl, hds, hrest⟩ := restTok_shape t h.2
      refine ⟨c :: ds, rest, rfl, List.cons_ne_nil c ds, ?_, hrest⟩
      intro x hx
      rcases List.mem_cons.mp hx with rfl | hx
      · exact h.1
      · exact hds x hx

theorem takeWhile_all_append (p : Char → Bool) (l r : List Char)
    (h : ∀ c ∈ l, p c = true) : (l ++ r).takeWhile p = l ++ r.takeWhile p := by
  induction l with
  | nil => simp
  | cons c t ih =>
      simp [List.takeWhile_cons, h c (List.mem_cons_self c t),
        ih (fun x hx => h x (List.mem_cons_of_mem c hx))]

theorem dropWhile_all_append (p : Char → Bool) (l r : List Char)
    (h : ∀ c ∈ l, p c = true) : (l ++ r).dropWhile p = r.dropWhile p := by
  induction l with
  | nil => simp
  | cons c t ih =>
      simp [List.dropWhile_cons, h c (List.mem_cons_self c t),
        ih (fun x hx => h x (List.mem_cons_of_mem c hx))]

theorem pyParseUnsigned_token (l : List Char) (h : isNumToken l = true) :
    ∃ d : Dec, pyParseUnsigned l = some d := by
  obtain ⟨ds, rest, rfl, hne, hds, hrest⟩ := isNumToken_shape l h
  rcases hrest with rfl | ⟨fs, rfl, hfs⟩
  · refine ⟨⟨digitsToNat ds, 0⟩, ?_⟩
    rw [pyParseUnsigned]
    rw [takeWhile_all_append Char.isDigit ds [] hds,
      dropWhile_all_append Char.isDigit ds [] hds]
    simp [List.isEmpty_eq_true, hne]
  · refine ⟨⟨digitsToNat (ds ++ fs), fs.length⟩, ?_⟩
    rw [pyParseUnsigned]
    rw [takeWhile_all_append Char.isDigit ds ('.' :: fs) hds,
      dropWhile_all_append Char.isDigit ds ('.' :: fs) hds]
    rw [show List.takeWhile Char.isDigit ('.' :: fs) = [] by
      simp [List.takeWhile_cons, dot_not_digit]]
    rw [show List.dropWhile Char.isDigit ('.' :: fs) = '.' :: fs by
      simp [List.dropWhile_cons, dot_not_digit]]
    rw [List.append_nil]
    simp only [List.all_eq_true, List.isEmpty_eq_true, Bool.and_eq_true,
      Bool.or_eq_true, Bool.not_eq_true']
    rw [if_pos ⟨hfs, Or.inl (by simpa using hne)⟩]

theorem decVal_nonneg (d : Dec) : 0 ≤ decVal d := by
  unfold decVal
  split
  · exact Nat.cast_nonneg d.m
  · exact div_nonneg (Nat.cast_nonneg d.m) (by positivity)

theorem pyFloat_token (t : String) (h : isNumToken t.data = true) :
    ∃ q, pyFloat t = some q ∧ 0 ≤ q := by
  obtain ⟨c, tail, hdata, hc⟩ : ∃ c tail, t.data = c :: tail ∧ c.isDigit = true := by
    cases hd : t.data with
    | nil => rw [hd] at h; exact absurd h (by simp [isNumToken])
    | cons c tail =>
        rw [hd] at h
        simp only [isNumToken, Bool.and_eq_true] at h
        exact ⟨c, tail, rfl, h.1⟩
  have hminus : c ≠ '-' := by intro hx; rw [hx] at hc; exact absurd hc (by decide)
  have hplus : c ≠ '+' := by intro hx; rw [hx] at hc; exact absurd hc (by decide)
  have hsign : pySign t.data = (false, t.data) := by
    rw [hdata, pySign]
    simp [hminus, hplus]
  obtain ⟨d, hd⟩ := pyParseUnsigned_token t.data h
  refine ⟨decVal d, ?_, decVal_nonneg d⟩
  rw [pyFloat, pyParse, hsign]
  simp [hd]

/-- Every extracted token parses with Python `float` to a non-negative
rational. -/
theorem pyFloat_extract (s t : String) (ht : t ∈ extract_number s) :
    ∃ q, pyFloat t = some q ∧ 0 ≤ q :=
  pyFloat_token t (extract_number_tokens s t ht)

theorem pyFloatD_extract_nonneg (s t : String) (ht : t ∈ extract_number s) :
    0 ≤ pyFloatD t := by
  obtain ⟨q, hq, h0⟩ := pyFloat_extract s t ht
  rw [pyFloatD, hq]
  exact h0

theorem floatE_extract (s t : String) (ht : t ∈ extract_number s) :
    floatE t = .ok (pyFloatD t) := by
  obtain ⟨q, hq, _⟩ := pyFloat_extract s t ht
  rw [floatE, pyFloatD, hq]
  rfl

/-! The function `process_record` never raises -/

theorem mapM_floatE_ok (ts : List String)
    (h : ∀ t ∈ ts, floatE t = .ok (pyFloatD t)) :
    ts.mapM floatE = .ok (ts.map pyFloatD) := by
  induction ts with
  | nil => rfl
  | cons t ts ih =>
      rw [List.mapM_cons, h t (List.mem_cons_self t ts),
        ih (fun x hx => h x (List.mem_cons_of_mem t hx))]
      rfl

theorem mapM_floatE_extract (s : String) :
    (extract_number s).mapM floatE = .ok ((extract_number s).map pyFloatD) :=
  mapM_floatE_ok (extract_number s) (fun t ht => floatE_extract s t ht)

theorem roomPoolE_eq (rooms : List Value) :
    roomPoolE rooms = .ok (roomPoolD rooms) := by
  induction rooms with
  | nil => rfl
  | cons v vs ih =>
      cases v with
      | vstr s =>
          rw [roomPoolE, mapM_floatE_extract, ih]
          rfl
      | vlist l => exact ih
      | vnull => exact ih
      | vnum q => exact ih
      | vother => exact ih

/-- Every `float(...)` call made by `process_record` succeeds: the
exception-explicit embedding always returns the total row. -/
theorem processRecordE_eq (record : RawRecord) :
    processRecordE record = .ok (processRecord record) := by
  rw [processRecordE, roomPoolE_eq, mapM_floatE_extract, mapM_floatE_extract,
    mapM_floatE_extract]

/-! Non-negativity -/

theorem pyRound_nonneg (q : ℚ) (h : 0 ≤ q) : 0 ≤ pyRound q := by
  have hn : (0:ℤ) ≤ Int.floor q := Int.le_floor.mpr (by exact_mod_cast h)
  rw [pyRound]
  split
  · exact hn
  · split
    · omega
    · split
      · exact hn
      · omega

theorem pyInt_nonneg (q : ℚ) (h : 0 ≤ q) : 0 ≤ pyInt q := by
  rw [pyInt, if_pos h]
  exact Int.le_floor.mpr (by exact_mod_cast h)

theorem mean_nonneg (l : List ℚ) (h : ∀ q ∈ l, 0 ≤ q) : 0 ≤ mean l :=
  div_nonneg (List.sum_nonneg h) (Nat.cast_nonneg l.length)

theorem roomPoolD_nonneg (rooms : List Value) :
    ∀ q ∈ roomPoolD rooms, 0 ≤ q := by
  induction rooms with
  | nil => intro q hq; simp [roomPoolD] at hq
  | cons v vs ih =>
      intro q hq
      cases v with
      | vstr s =>
          rw [roomPoolD] at hq
          rcases List.mem_append.mp hq with hq | hq
          · obtain ⟨t, ht, rfl⟩ := List.mem_map.mp hq
            exact pyFloatD_extract_nonneg s t ht
          · exact ih q hq
      | vlist l => exact ih q hq
      | vnull => exact ih q hq
      | vnum x => exact ih q hq
      | vother => exact ih q hq

/-! Field access on the produced row -/

theorem rowLookup_room (r : RawRecord) :
    rowLookup (processRecord r) "房型" = some (roomCellD (getRooms r)) := rfl

theorem rowLookup_area (r : RawRecord) :
    rowLookup (processRecord r) "面积" =
      some (areaCellD (safeGetStr r "area")) := rfl

theorem rowLookup_totalPrice (r : RawRecord) :
    rowLookup (processRecord r) "总价" =
      some (priceCellD (safeGetStr r "total_price")) := rfl

theorem rowLookup_unitPrice (r : RawRecord) :
    rowLookup (processRecord r) "均价" =
      some (priceCellD (safeGetStr r "unit_price")) := rfl

theorem roomCellD_shape (rooms : List Value) :
    roomCellD rooms = .str "" ∨ ∃ n, roomCellD rooms = .int n := by
  rw [roomCellD]
  cases roomPoolD rooms with
  | nil => exact Or.inl rfl
  | cons q qs => exact Or.inr ⟨_, rfl⟩

theorem areaCellD_shape (t : String) :
    areaCellD t = .str "" ∨ ∃ n, areaCellD t = .int n := by
  rw [areaCellD]
  cases extract_number t with
  | nil => exact Or.inl rfl
  | cons a l =>
      cases l with
      | nil => exact Or.inr ⟨_, rfl⟩
      | cons b l => exact Or.inr ⟨_, rfl⟩

theorem priceCellD_shape (t : String) :
    priceCellD t = .str "" ∨ ∃ n, priceCellD t = .int n := by
  rw [priceCellD]
  cases extract_number t with
  | nil => exact Or.inl rfl
  | cons a l => exact Or.inr ⟨_, rfl⟩

theorem scanAux_no_digit (cs : List Char) (h : ∀ c ∈ cs, c.isDigit = false) :
    scanAux .idle [] cs = [] := by
  induction cs with
  | nil => rfl
  | cons c cs ih =>
      rw [scanAux, if_neg (by simp [h c (List.mem_cons_self c cs)])]
      exact ih (fun x hx => h x (List.mem_cons_of_mem c hx))

/-! The claims -/

/-- C1, counterexample: `extract_number` applied to `None` does not yield an
empty sequence — `re.findall` raises `TypeError` on a non-string subject. -/
theorem C1_counterexample :
    extract_numberV Value.vnull = .error "TypeError" ∧
      extract_numberV Value.vnull ≠ .ok [] :=
  ⟨rfl, fun h => Except.noConfusion h⟩

/-- C1, amended: `extract_number` on any string with no digit yields the
empty sequence; applied directly to `None` or any non-string it raises
`TypeError`; the `None`/non-string case is neutralized by `safe_get_str`
at every call site, whose empty-string result yields an empty sequence. -/
theorem C1_no_digits_empty (s : String) (hs : ∀ c ∈ s.data, c.isDigit = false)
    (v : Value) (hv : v.isStr = false) :
    extract_number s = [] ∧ extract_numberV v = .error "TypeError" ∧
      extract_number (safeGetStr [("x", v)] "x") = [] := by
  refine ⟨scanAux_no_digit s.data hs, ?_, ?_⟩
  · cases v with
    | vstr s => exact absurd hv (by simp [Value.isStr])
    | vlist l => rfl
    | vnull => rfl
    | vnum q => rfl
    | vother => rfl
  · cases v with
    | vstr s => exact absurd hv (by simp [Value.isStr])
    | vlist l => rfl
    | vnull => rfl
    | vnum q => rfl
    | vother => rfl

/-- C1, witness: concrete no-digit string and concrete non-string value. -/
theorem C1_witness :
    extract_number "㎡平米" = [] ∧
      extract_numberV (Value.vnum 3) = .error "TypeError" ∧
      extract_number (safeGetStr [("x", Value.vnum 3)] "x") = [] :=
  C1_no_digits_empty "㎡平米" (by decide) (Value.vnum 3) rfl

/-- C3: the `面积` field is the rounded midpoint of the first two extracted
tokens (further tokens ignored), the rounded single token, or the missing
marker when no token is found. -/
theorem C3_area_rule (record : RawRecord) :
    (∀ a b rest, extract_number (safeGetStr record "area") = a :: b :: rest →
        rowLookup (processRecord record) "面积" =
          some (.int (pyRound ((pyFloatD a + pyFloatD b) / 2)))) ∧
    (∀ a, extract_number (safeGetStr record "area") = [a] →
        rowLookup (processRecord record) "面积" =
          some (.int (pyRound (pyFloatD a)))) ∧
    (extract_number (safeGetStr record "area") = [] →
        rowLookup (processRecord record) "面积" = some (.str "")) := by
  refine ⟨?_, ?_, ?_⟩
  · intro a b rest h
    rw [rowLookup_area, areaCellD, h]
  · intro a h
    rw [rowLookup_area, areaCellD, h]
  · intro h
    rw [rowLookup_area, areaCellD, h]

/-- C3, witness: "80-100㎡" gives 90, "75㎡" gives 75, "" gives the missing
marker. -/
theorem C3_witness :
    rowLookup (processRecord [("area", Value.vstr "80-100㎡")]) "面积" =
      some (.int 90) ∧
    rowLookup (processRecord [("area", Value.vstr "75㎡")]) "面积" =
      some (.int 75) ∧
    rowLookup (processRecord [("area", Value.vstr "")]) "面积" =
      some (.str "") := by
  refine ⟨?_, ?_, ?_⟩
  · rw [(C3_area_rule [("area", Value.vstr "80-100㎡")]).1 "80" "100" []
      (by decide)]
    rw [show pyFloatD "80" = 80 from by decide,
      show pyFloatD "100" = 100 from by decide]
    norm_num [pyRound]
  · rw [(C3_area_rule [("area", Value.vstr "75㎡")]).2.1 "75" (by decide)]
    rw [show pyFloatD "75" = 75 from by decide]
    norm_num [pyRound]
  · exact (C3_area_rule [("area", Value.vstr "")]).2.2 (by decide)

/-- C5: the `总价` field is `int(float(first token))` — truncation toward
zero — of its own source text, missing when no token; `均价` obeys the
identical rule on its own source field. -/
theorem C5_price_rule (record : RawRecord) :
    (∀ a rest, extract_number (safeGetStr record "total_price") = a :: rest →
        rowLookup (processRecord record) "总价" =
          some (.int (pyInt (pyFloatD a)))) ∧
    (extract_number (safeGetStr record "total_price") = [] →
        rowLookup (processRecord record) "总价" = some (.str "")) ∧
    (∀ a rest, extract_number (safeGetStr record "unit_price") = a :: rest →
        rowLookup (processRecord record) "均价" =
          some (.int (pyInt (pyFloatD a)))) ∧
    (extract_number (safeGetStr record "unit_price") = [] →
        rowLookup (processRecord record) "均价" = some (.str "")) := by
  refine ⟨?_, ?_, ?_, ?_⟩
  · intro a rest h
    rw [rowLookup_totalPrice, priceCellD, h]
  · intro h
    rw [rowLookup_totalPrice, priceCellD, h]
  · intro a rest h
    rw [rowLookup_unitPrice, priceCellD, h]
  · intro h
    rw [rowLookup_unitPrice, priceCellD, h]

/-- C5, witness: "总价3.9万" truncates to 3 (not 4), and `均价` from
"4.5万元 6" independently truncates its own first token to 4. -/
theorem C5_witness :
    rowLookup (processRecord
        [("total_price", Value.vstr "总价3.9万"),
         ("unit_price", Value.vstr "4.5万元 6")]) "总价" = some (.int 3) ∧
    rowLookup (processRecord
        [("total_price", Value.vstr "总价3.9万"),
         ("unit_price", Value.vstr "4.5万元 6")]) "均价" = some (.int 4) := by
  constructor
  · rw [(C5_price_rule _).1 "3.9" [] (by decide)]
    rw [show pyFloatD "3.9" = decVal ⟨39, 1⟩ from by
      simp [pyFloatD, pyFloat, show pyParse "3.9" = some (false, ⟨39, 1⟩)
        from by decide]]
    norm_num [pyInt, decVal]
  · rw [(C5_price_rule _).2.2.1 "4.5" ["6"] (by decide)]
    rw [show pyFloatD "4.5" = decVal ⟨45, 1⟩ from by
      simp [pyFloatD, pyFloat, show pyParse "4.5" = some (false, ⟨45, 1⟩)
        from by decide]]
    norm_num [pyInt, decVal]

/-- C4: `process_record` never raises — the exception-explicit embedding
returns the total row — and the row holds exactly the nine schema fields in
order, each a string or integer, with the four numeric fields each an
integer or the empty-string missing marker. -/
theorem C4_never_raises (record : RawRecord) :
    processRecordE record = .ok (processRecord record) ∧
    (processRecord record).map Prod.fst = fieldnames ∧
    (∀ p ∈ processRecord record,
        (∃ s, p.2 = Cell.str s) ∨ ∃ n, p.2 = Cell.int n) ∧
    (∀ k ∈ (["房型", "面积", "总价", "均价"] : List String), ∃ c,
        rowLookup (processRecord record) k = some c ∧
        (c = Cell.str "" ∨ ∃ n, c = Cell.int n)) := by
  refine ⟨processRecordE_eq record, rfl, ?_, ?_⟩
  · intro p hp
    simp only [processRecord, List.mem_cons, List.not_mem_nil, or_false] at hp
    rcases hp with rfl | rfl | rfl | rfl | rfl | rfl | rfl | rfl | rfl
    · exact Or.inl ⟨_, rfl⟩
    · exact Or.inl ⟨_, rfl⟩
    · exact Or.inl ⟨_, rfl⟩
    · exact Or.inl ⟨_, rfl⟩
    · exact Or.inl ⟨_, rfl⟩
    · rcases roomCellD_shape (getRooms record) with h | ⟨n, h⟩
      · exact Or.inl ⟨"", h⟩
      · exact Or.inr ⟨n, h⟩
    · rcases areaCellD_shape (safeGetStr record "area") with h | ⟨n, h⟩
      · exact Or.inl ⟨"", h⟩
      · exact Or.inr ⟨n, h⟩
    · rcases priceCellD_shape (safeGetStr record "total_price") with h | ⟨n, h⟩
      · exact Or.inl ⟨"", h⟩
      · exact Or.inr ⟨n, h⟩
    · rcases priceCellD_shape (safeGetStr record "unit_price") with h | ⟨n, h⟩
      · exact Or.inl ⟨"", h⟩
      · exact Or.inr ⟨n, h⟩
  · intro k hk
    simp only [List.mem_cons, List.not_mem_nil, or_false] at hk
    rcases hk with rfl | rfl | rfl | rfl
    · exact ⟨_, rowLookup_room record, roomCellD_shape (getRooms record)⟩
    · exact ⟨_, rowLookup_area record, areaCellD_shape _⟩
    · exact ⟨_, rowLookup_totalPrice record, priceCellD_shape _⟩
    · exact ⟨_, rowLookup_unitPrice record, priceCellD_shape _⟩

/-- C4, witness: a thoroughly malformed record (null name, non-list
location, mixed-type room list, digit-free area) still yields the full
nine-field row without an exception. -/
theorem C4_witness :
    processRecordE
        [("name", Value.vnull), ("location", Value.vnum 5),
         ("room", Value.vlist [Value.vstr "3室", Value.vnum 2]),
         ("area", Value.vstr "无")] =
      .ok (processRecord
        [("name", Value.vnull), ("location", Value.vnum 5),
         ("room", Value.vlist [Value.vstr "3室", Value.vnum 2]),
         ("area", Value.vstr "无")]) ∧
    (processRecord
        [("name", Value.vnull), ("location", Value.vnum 5),
         ("room", Value.vlist [Value.vstr "3室", Value.vnum 2]),
         ("area", Value.vstr "无")]).map Prod.fst = fieldnames :=
  ⟨(C4_never_raises _).1, (C4_never_raises _).2.1⟩

/-- C10: every extracted token matches `digit+ (dot digit*)?`, so Python
`float` accepts it and yields a non-negative value; consequently every
numeric field of the normalized row, when present, is non-negative. -/
theorem C10_tokens_nonneg :
    (∀ s t, t ∈ extract_number s → isNumToken t.data = true ∧
        ∃ q, pyFloat t = some q ∧ 0 ≤ q) ∧
    (∀ (record : RawRecord) (k : String) (n : ℤ),
        k ∈ (["房型", "面积", "总价", "均价"] : List String) →
        rowLookup (processRecord record) k = some (Cell.int n) → 0 ≤ n) := by
  constructor
  · intro s t ht
    exact ⟨extract_number_tokens s t ht, pyFloat_extract s t ht⟩
  · intro record k n hk hlook
    simp only [List.mem_cons, List.not_mem_nil, or_false] at hk
    rcases hk with rfl | rfl | rfl | rfl
    · rw [rowLookup_room record] at hlook
      have hcell := Option.some_injective _ hlook
      rw [roomCellD] at hcell
      cases hpool : roomPoolD (getRooms record) with
      | nil => rw [hpool] at hcell; exact absurd hcell (by simp)
      | cons q qs =>
          rw [hpool] at hcell
          have hn : n = pyRound (mean (q :: qs)) := (Cell.int.injEq _ _).mp hcell.symm
          rw [hn]
          exact pyRound_nonneg _ (mean_nonneg _
            (fun x hx => roomPoolD_nonneg (getRooms record) x (hpool ▸ hx)))
    · rw [rowLookup_area record] at hlook
      have hcell := Option.some_injective _ hlook
      rw [areaCellD] at hcell
      cases hts : extract_number (safeGetStr record "area") with
      | nil => rw [hts] at hcell; exact absurd hcell (by simp)
      | cons a l =>
          cases l with
          | nil =>
              rw [hts] at hcell
              have hn : n = pyRound (pyFloatD a) := (Cell.int.injEq _ _).mp hcell.symm
              rw [hn]
              exact pyRound_nonneg _ (pyFloatD_extract_nonneg _ a
                (hts ▸ List.mem_cons_self a _))
          | cons b l =>
              rw [hts] at hcell
              have hn : n = pyRound ((pyFloatD a + pyFloatD b) / 2) :=
                (Cell.int.injEq _ _).mp hcell.symm
              have ha : 0 ≤ pyFloatD a := pyFloatD_extract_nonneg _ a
                (hts ▸ List.mem_cons_self a _)
              have hb : 0 ≤ pyFloatD b := pyFloatD_extract_nonneg _ b
                (hts ▸ List.mem_cons_of_mem a (List.mem_cons_self b _))
              rw [hn]
              exact pyRound_nonneg _ (by positivity)
    · rw [rowLookup_totalPrice record] at hlook
      have hcell := Option.some_injective _ hlook
      rw [priceCellD] at hcell
      cases hts : extract_number (safeGetStr record "total_price") with
      | nil => rw [hts] at hcell; exact absurd hcell (by simp)
      | cons a l =>
          rw [hts] at hcell
          have hn : n = pyInt (pyFloatD a) := (Cell.int.injEq _ _).mp hcell.symm
          rw [hn]
          exact pyInt_nonneg _ (pyFloatD_extract_nonneg _ a
            (hts ▸ List.mem_cons_self a _))
    · rw [rowLookup_unitPrice record] at hlook
      have hcell := Option.some_injective _ hlook
      rw [priceCellD] at hcell
      cases hts : extract_number (safeGetStr record "unit_price") with
      | nil => rw [hts] at hcell; exact absurd hcell (by simp)
      | cons a l =>
          rw [hts] at hcell
          have hn : n = pyInt (pyFloatD a) := (Cell.int.injEq _ _).mp hcell.symm
          rw [hn]
          exact pyInt_nonneg _ (pyFloatD_extract_nonneg _ a
            (hts ▸ List.mem_cons_self a _))

/-- C10, witness: the token "80" of "80-100㎡" is well-shaped and parses
non-negatively, and the concrete `总价` field value 3 is non-negative. -/
theorem C10_witness :
    (isNumToken ("80").data = true ∧ ∃ q, pyFloat "80" = some q ∧ 0 ≤ q) ∧
    (0 : ℤ) ≤ 3 := by
  constructor
  · exact C10_tokens_nonneg.1 "80-100㎡" "80" (by decide)
  · refine C10_tokens_nonneg.2 [("total_price", Value.vstr "总价3.9万")]
      "总价" 3 (by decide) ?_
    rw [rowLookup_totalPrice, priceCellD,
      show extract_number (safeGetStr
        [("total_price", Value.vstr "总价3.9万")] "total_price") = ["3.9"]
        from by decide]
    show some (Cell.int (pyInt (pyFloatD "3.9"))) = some (Cell.int 3)
    rw [show pyFloatD "3.9" = decVal ⟨39, 1⟩ from by
      simp [pyFloatD, pyFloat, show pyParse "3.9" = some (false, ⟨39, 1⟩)
        from by decide]]
    norm_num [pyInt, decVal]

theorem loadDataAvg_error (csv : Csv) (c : String)
    (h : checkColumns ["均价", "总价", "行政区"] csv.header = .error c) :
    loadDataAvg csv = .error c := by
  rw [loadDataAvg, h]

theorem checkColumns_first_missing :
    ∀ (required header : List String) (c : String),
      checkColumns required header = .error c ↔
        ∃ pre post, required = pre ++ c :: post ∧
          (∀ x ∈ pre, x ∈ header) ∧ c ∉ header := by
  intro required
  induction required with
  | nil =>
      intro header c
      constructor
      · intro h; exact absurd h (by simp [checkColumns])
      · rintro ⟨pre, post, h, -, -⟩
        cases pre <;> simp at h
  | cons c0 cs ih =>
      intro header c
      by_cases hc0 : c0 ∈ header
      · rw [show checkColumns (c0 :: cs) header = checkColumns cs header by
          rw [checkColumns, if_pos hc0]]
        rw [ih header c]
        constructor
        · rintro ⟨pre, post, rfl, hpre, hc⟩
          refine ⟨c0 :: pre, post, rfl, ?_, hc⟩
          intro x hx
          rcases List.mem_cons.mp hx with rfl | hx
          · exact hc0
          · exact hpre x hx
        · rintro ⟨pre, post, hsplit, hpre, hc⟩
          cases pre with
          | nil =>
              simp only [List.nil_append, List.cons.injEq] at hsplit
              exact absurd (hsplit.1 ▸ hc0) hc
          | cons p0 pre =>
              simp only [List.cons_append, List.cons.injEq] at hsplit
              exact ⟨pre, post, hsplit.2, fun x hx =>
                hpre x (List.mem_cons_of_mem p0 hx), hc⟩
      · rw [show checkColumns (c0 :: cs) header = .error c0 by
          rw [checkColumns, if_neg hc0]]
        constructor
        · intro h
          have hc0c : c0 = c := by injection h
          subst hc0c
          exact ⟨[], cs, rfl, by simp, hc0⟩
        · rintro ⟨pre, post, hsplit, hpre, hc⟩
          cases pre with
          | nil =>
              simp only [List.nil_append, List.cons.injEq] at hsplit
              rw [hsplit.1]
          | cons p0 pre =>
              simp only [List.cons_append, List.cons.injEq] at hsplit
              exact absurd (hsplit.1 ▸ hpre p0 (List.mem_cons_self p0 pre)) hc0

theorem checkColumns_of_missing :
    ∀ (required header : List String), (∃ c ∈ required, c ∉ header) →
      ∃ c, checkColumns required header = .error c ∧ c ∈ required ∧ c ∉ header := by
  intro required
  induction required with
  | nil => rintro header ⟨c, hc, -⟩; exact absurd hc (List.not_mem_nil c)
  | cons c0 cs ih =>
      rintro header ⟨c, hc, hnot⟩
      by_cases hc0 : c0 ∈ header
      · have hcs : c ∈ cs := by
          rcases List.mem_cons.mp hc with rfl | h
          · exact absurd hc0 hnot
          · exact h
        obtain ⟨c1, herr, hin, hn⟩ := ih header ⟨c, hcs, hnot⟩
        refine ⟨c1, ?_, List.mem_cons_of_mem c0 hin, hn⟩
        rw [checkColumns, if_pos hc0]
        exact herr
      · refine ⟨c0, ?_, List.mem_cons_self c0 cs, hc0⟩
        rw [checkColumns, if_neg hc0]

/-- C6: a missing required column makes `load_data` report the first
missing column of the caller-declared list and return no table; in
particular a header with valid price columns but no `行政区` reports
exactly `行政区`. -/
theorem C6_missing_column :
    (∀ (required header : List String) (c : String),
        checkColumns required header = .error c ↔
          ∃ pre post, required = pre ++ c :: post ∧
            (∀ x ∈ pre, x ∈ header) ∧ c ∉ header) ∧
    (∀ csv : Csv,
        (∃ c ∈ (["均价", "总价", "行政区"] : List String), c ∉ csv.header) →
        ∃ c, loadDataAvg csv = .error c ∧
          c ∈ (["均价", "总价", "行政区"] : List String) ∧ c ∉ csv.header) ∧
    (∀ csv : Csv, "均价" ∈ csv.header → "总价" ∈ csv.header →
        "行政区" ∉ csv.header → loadDataAvg csv = .error "行政区") := by
  refine ⟨checkColumns_first_missing, ?_, ?_⟩
  · intro csv hex
    obtain ⟨c, herr, hin, hnot⟩ :=
      checkColumns_of_missing ["均价", "总价", "行政区"] csv.header hex
    exact ⟨c, loadDataAvg_error csv c herr, hin, hnot⟩
  · intro csv h1 h2 h3
    refine loadDataAvg_error csv "行政区" ?_
    rw [checkColumns, if_pos h1, checkColumns, if_pos h2, checkColumns,
      if_neg h3]

/-- C6, witness: a table with only the two price columns is rejected with
the diagnostic naming `行政区`. -/
theorem C6_witness :
    loadDataAvg ⟨["均价", "总价"], [[some "100", some "500"]]⟩ =
      .error "行政区" :=
  C6_missing_column.2.2 ⟨["均价", "总价"], [[some "100", some "500"]]⟩
    (by decide) (by decide) (by decide)

/-- C7: `normalize_data` rescales each listed column independently by
`(v - min) / (max - min)`, and a zero-variance column (including a single
row) maps every value to 0 — no error and no 0.5. -/
theorem C7_range_scaling (tbl : List (String × List ℚ)) (metrics : List String)
    (n : String) (xs : List ℚ) (hmem : (n, xs) ∈ tbl) (hm : n ∈ metrics) :
    (n, normalizeColumn xs) ∈ normalizeData tbl metrics ∧
    (listMax xs = listMin xs → normalizeColumn xs = xs.map (fun _ => 0)) ∧
    (listMax xs ≠ listMin xs → normalizeColumn xs =
        xs.map (fun v => (v - listMin xs) / (listMax xs - listMin xs))) := by
  refine ⟨?_, ?_, ?_⟩
  · have h := List.mem_map_of_mem
      (fun col : String × List ℚ =>
        if col.1 ∈ metrics then (col.1, normalizeColumn col.2) else col) hmem
    rw [normalizeData]
    simpa [hm] using h
  · intro h
    rw [normalizeColumn, if_pos (sub_eq_zero.mpr h)]
  · intro h
    rw [normalizeColumn, if_neg (fun hz => h (sub_eq_zero.mp hz))]

/-- C7, witness: the all-equal column `[5, 5, 5, 5]` is rescaled to
`[0, 0, 0, 0]` inside `normalize_data`. -/
theorem C7_witness :
    ("平均面积", normalizeColumn [5, 5, 5, 5]) ∈
      normalizeData [("平均面积", [5, 5, 5, 5])]
        ["平均面积", "平均房型", "平均单价", "平均总价", "楼盘数量"] ∧
    normalizeColumn [(5 : ℚ), 5, 5, 5] = [0, 0, 0, 0] := by
  have h := C7_range_scaling [("平均面积", [5, 5, 5, 5])]
    ["平均面积", "平均房型", "平均单价", "平均总价", "楼盘数量"]
    "平均面积" [5, 5, 5, 5] (List.mem_singleton.mpr rfl)
    (List.mem_cons_self _ _)
  refine ⟨h.1, ?_⟩
  have heq : listMax [(5 : ℚ), 5, 5, 5] = listMin [(5 : ℚ), 5, 5, 5] := by
    simp [listMax, listMin]
  simpa using h.2.1 heq

/-- C8, counterexample: with a missing `楼盘名称` cell in one of district
A's rows, the produced count is 1 although the group has 2 rows — the
pandas `("楼盘名称", "count")` aggregate counts non-null names, not rows. -/
theorem C8_counterexample :
    ∃ e ∈ preparePlotData
        [⟨100, 500, "A", some "x"⟩, ⟨200, 600, "A", none⟩,
         ⟨50, 300, "B", some "y"⟩],
      e.key = "A" ∧ e.count = 1 ∧
      (([⟨100, 500, "A", some "x"⟩, ⟨200, 600, "A", none⟩,
         ⟨50, 300, "B", some "y"⟩] : List CleanRowA).filter
          (fun r => r.district == "A")).length = 2 ∧ (1 : ℕ) ≠ 2 := by
  refine ⟨summarizeDistrict
      [⟨100, 500, "A", some "x"⟩, ⟨200, 600, "A", none⟩,
       ⟨50, 300, "B", some "y"⟩] "A", ?_, rfl, by decide, by decide, by decide⟩
  exact (List.Perm.mem_iff (List.perm_insertionSort _ _)).mpr
    (List.mem_map_of_mem _ (by decide))

/-- C8, amended: grouping produces, for each distinct key, the mean of each
numeric column over exactly that group's rows, and the number of the
group's rows with a non-missing `楼盘名称` (equal to the row count whenever
every name is present). -/
theorem C8_grouping_amended (rows : List CleanRowA) (k : String)
    (hk : k ∈ rows.map (·.district)) :
    ∃ e ∈ preparePlotData rows, e.key = k ∧
      e.avgUnit = mean ((rows.filter (fun r => r.district == k)).map (·.unit)) ∧
      e.avgTotal = mean ((rows.filter (fun r => r.district == k)).map (·.total)) ∧
      e.count = ((rows.filter (fun r => r.district == k)).filter
          (fun r => r.name.isSome)).length := by
  refine ⟨summarizeDistrict rows k, ?_, rfl, rfl, rfl, rfl⟩
  have hk' : k ∈ districtKeys rows := List.mem_dedup.mpr hk
  exact (List.Perm.mem_iff (List.perm_insertionSort _ _)).mpr
    (List.mem_map_of_mem _ hk')

/-- C8, witness: on the claim's example (all names present) district A
gets mean 150 over its 2 rows and count 2, district B mean 50, count 1. -/
theorem C8_witness :
    (∃ e ∈ preparePlotData
        [⟨100, 500, "A", some "n1"⟩, ⟨200, 600, "A", some "n2"⟩,
         ⟨50, 300, "B", some "n3"⟩],
      e.key = "A" ∧
      e.avgUnit = mean ((([⟨100, 500, "A", some "n1"⟩,
          ⟨200, 600, "A", some "n2"⟩, ⟨50, 300, "B", some "n3"⟩] :
            List CleanRowA).filter
          (fun r => r.district == "A")).map (·.unit)) ∧
      e.avgTotal = mean ((([⟨100, 500, "A", some "n1"⟩,
          ⟨200, 600, "A", some "n2"⟩, ⟨50, 300, "B", some "n3"⟩] :
            List CleanRowA).filter
          (fun r => r.district == "A")).map (·.total)) ∧
      e.count = ((([⟨100, 500, "A", some "n1"⟩, ⟨200, 600, "A", some "n2"⟩,
          ⟨50, 300, "B", some "n3"⟩] : List CleanRowA).filter
          (fun r => r.district == "A")).filter
          (fun r => r.name.isSome)).length) ∧
    mean ((([⟨100, 500, "A", some "n1"⟩, ⟨200, 600, "A", some "n2"⟩,
        ⟨50, 300, "B", some "n3"⟩] : List CleanRowA).filter
        (fun r => r.district == "A")).map (·.unit)) = 150 ∧
    ((([⟨100, 500, "A", some "n1"⟩, ⟨200, 600, "A", some "n2"⟩,
        ⟨50, 300, "B", some "n3"⟩] : List CleanRowA).filter
        (fun r => r.district == "A")).filter
        (fun r => r.name.isSome)).length = 2 := by
  refine ⟨C8_grouping_amended _ "A" (by decide), ?_, by decide⟩
  rw [show (([⟨100, 500, "A", some "n1"⟩, ⟨200, 600, "A", some "n2"⟩,
      ⟨50, 300, "B", some "n3"⟩] : List CleanRowA).filter
      (fun r => r.district == "A")).map (·.unit) = [(100 : ℚ), 200]
    from by decide]
  norm_num [mean, List.sum_cons, List.sum_nil]

/-- C9: the pivot of the two-key group summary indexes rows by `行政区`
and columns by `类型`; a key pair with zero observations yields a missing
cell, an observed pair yields its group mean. -/
theorem C9_pivot (rows : List CleanRowH) (d t : String)
    (_hd : d ∈ pivotRowKeys rows) (_ht : t ∈ pivotColKeys rows) :
    ((¬ ∃ r ∈ rows, r.district = d ∧ r.ty = t) →
        pivotUnitCell rows d t = none) ∧
    ((∃ r ∈ rows, r.district = d ∧ r.ty = t) →
        pivotUnitCell rows d t = some (pairMeanUnit rows d t)) := by
  constructor
  · intro hno
    rw [pivotUnitCell, List.find?_eq_none.mpr ?_]
    · rfl
    · intro e he
      obtain ⟨p, hp, rfl⟩ := List.mem_map.mp he
      simp only [beq_iff_eq]
      intro hpe
      obtain ⟨r, hr, hpr⟩ := List.mem_map.mp (List.mem_dedup.mp hp)
      refine hno ⟨r, hr, ?_, ?_⟩
      · rw [show r.district = p.1 from by rw [← hpr], hpe]
      · rw [show r.ty = p.2 from by rw [← hpr], hpe]
  · rintro ⟨r, hr, hdr, htr⟩
    have hpk : (d, t) ∈ pairKeys rows :=
      List.mem_dedup.mpr (List.mem_map.mpr ⟨r, hr, by rw [hdr, htr]⟩)
    have hgm : ((d, t), pairMeanUnit rows d t, pairMeanTotal rows d t) ∈
        groupedHeat rows := List.mem_map_of_mem _ hpk
    cases hfind : (groupedHeat rows).find? (fun e => e.1 == (d, t)) with
    | none =>
        have := List.find?_eq_none.mp hfind _ hgm
        exact absurd (by simp : ((((d, t), pairMeanUnit rows d t,
          pairMeanTotal rows d t) : (String × String) × ℚ × ℚ).1 ==
            (d, t)) = true) this
    | some e =>
        have hpe := List.find?_some hfind
        obtain ⟨p, hp, rfl⟩ :=
          List.mem_map.mp (List.mem_of_find?_eq_some hfind)
        have hpd : p = (d, t) := by simpa using hpe
        subst hpd
        rw [pivotUnitCell, hfind]
        rfl

/-- C9, witness: district A observed only with type X, so the pivot cell
(A, Y) is missing — not zero — although Y is a column key. -/
theorem C9_witness :
    pivotUnitCell [⟨"A", "X", 100, 500⟩, ⟨"B", "Y", 80, 300⟩] "A" "Y" =
      none ∧
    pivotUnitCell [⟨"A", "X", 100, 500⟩, ⟨"B", "Y", 80, 300⟩] "A" "Y" ≠
      some 0 := by
  have h := (C9_pivot [⟨"A", "X", 100, 500⟩, ⟨"B", "Y", 80, 300⟩] "A" "Y"
    (by decide) (by decide)).1 (by decide)
  exact ⟨h, fun hx => Option.noConfusion (h ▸ hx)⟩

/-- C2: evaluation of `load_data` at the failing input.  A row whose
required categorical `行政区` cell is missing is NOT dropped: `astype(str)`
turns the missing value into the literal string "nan" before the
`dropna` check, in both `average_price_per_district.py` and
`heatmap_average_price_per_district_type.py`; a row missing a required
numeric cell IS dropped. -/
theorem C2_astype_nan_eval :
    loadDataAvg ⟨["均价", "总价", "行政区"],
        [[some "100", some "500", none]]⟩ =
      .ok [⟨100, 500, "nan", none⟩] ∧
    loadDataHeat ⟨["均价", "总价", "行政区", "类型"],
        [[some "100", some "500", none, some "X"]]⟩ =
      .ok [⟨"nan", "X", 100, 500⟩] ∧
    loadDataAvg ⟨["均价", "总价", "行政区"],
        [[none, some "500", some "朝阳"]]⟩ = .ok [] := by
  refine ⟨?_, ?_, ?_⟩ <;> rfl

end House
